import Mathlib

/-!
Verification development for the sysmon terminal dashboard (src/main.go).

The rendering core of the program is shallowly embedded here:

* Go `float64` percentages are modelled as exact rationals (`ℚ`); the
  float-to-int conversion `int(x)` is modelled by truncation toward zero
  (`ratTrunc`), and Go integer division by `Int.tdiv` (both truncate
  toward zero, as in Go).
* Go strings, indexed as `[]rune` in the source, are modelled as
  `List Char` (code points).
* Styled terminal output is modelled as lists of cells: a character
  together with a style tag recording whether the character was written
  bare (`unstyled`), through the active lipgloss style (`fg`, the plain
  band color), or through the inverted background style (`bg`, the
  filled part of a bar).  Stripping styling escape codes from a rendered
  line corresponds to projecting each cell to its character.
* Slice indexing is embedded through `Option`-returning lookups
  (`l[i]?`), so an out-of-bounds access surfaces as `none`.
-/

/-- Style tag of one rendered character cell: written bare, through the
active band style, or through the inverted (background) style used for
the filled portion of a bar. -/
inductive CellStyle
  | unstyled
  | fg
  | bg
deriving DecidableEq

/-- One rendered character cell: the character plus how it was styled. -/
abbrev Cell := Char × CellStyle

/-- Cells of a string written without any styling. -/
def cellsU (s : List Char) : List Cell := s.map (fun c => (c, CellStyle.unstyled))

/-- Cells of a string rendered through the active style. -/
def cellsF (s : List Char) : List Cell := s.map (fun c => (c, CellStyle.fg))

/-- Left-pad a string with a pad character up to the given width
(Go fmt right-aligned padding). -/
def padLeft (w : ℕ) (c : Char) (s : List Char) : List Char :=
  List.replicate (w - s.length) c ++ s

/-- Right-pad a string with spaces up to the given width
(Go fmt left-justified padding, as in the minus flag). -/
def padRight (w : ℕ) (s : List Char) : List Char :=
  s ++ List.replicate (w - s.length) ' '

/-- Decimal digits of a natural number. -/
def natDigits (n : ℕ) : List Char := Nat.toDigits 10 n

/-- Decimal rendering of an integer, with a leading minus sign when negative
(Go fmt integer verb). -/
def intDigits (z : ℤ) : List Char :=
  if z < 0 then '-' :: natDigits (-z).toNat else natDigits z.toNat

/-- Computable absolute value on the rational model. -/
def ratAbs (x : ℚ) : ℚ := if x < 0 then -x else x

/-- Computable floor on the rational model; the denominator is positive,
so dividing the numerator by it with integer floor division is the
floor. -/
def ratFloor (x : ℚ) : ℤ := x.num / x.den

/-- Models Go fmt of a float64 with one decimal place and a minimum field
width (verbs such as %5.1f): the rational magnitude is rounded to tenths
(ties, which cannot arise from the binary floats the program produces,
round up), printed as digits dot digit, sign restored, and left-padded
with spaces to the field width. -/
def fmtF1 (w : ℕ) (x : ℚ) : List Char :=
  let t : ℕ := (ratFloor (ratAbs x * 10 + 1/2)).toNat
  let body := natDigits (t / 10) ++ ['.'] ++ natDigits (t % 10)
  padLeft w ' ' (if x < 0 then '-' :: body else body)

/-- Models Go fmt of a float64 with no decimal places and a minimum field
width (verb %3.0f). -/
def fmtF0 (w : ℕ) (x : ℚ) : List Char :=
  let t : ℕ := (ratFloor (ratAbs x + 1/2)).toNat
  padLeft w ' ' (if x < 0 then '-' :: natDigits t else natDigits t)

/-- Translation of the percentage clamp at the top of createSimpleBar and
createBarWithText in src/main.go: values below 0 become 0, values above
100 become 100. -/
def clampPercent (p : ℚ) : ℚ :=
  if p < 0 then 0 else if p > 100 then 100 else p

/-- Go float-to-int conversion on our rational model: truncation toward
zero. -/
def ratTrunc (q : ℚ) : ℤ := if q < 0 then -(ratFloor (-q)) else ratFloor q

/-- Translation of the fill computation shared by both bar builders in
src/main.go: filled := int((percent / 100.0) * float64(width)). -/
def goFilled (p : ℚ) (w : ℤ) : ℤ := ratTrunc (p / 100 * w)

/-- Cell written at column i of the bar body loop of createBarWithText
(src/main.go lines 384-413): label characters on the left, the
percentage text right-aligned from percentStart on, filler spaces in
between; columns left of filled use the inverted background style.
Character lookups mirror Go rune-slice indexing and yield none when out
of bounds. -/
def barCell (label pt : List Char) (filled percentStart labelLen : ℤ) (i : ℕ) : Option Cell :=
  let sty : CellStyle := if (i : ℤ) < filled then .bg else .fg
  if (i : ℤ) < labelLen then
    (label[i]?).map (fun c => (c, sty))
  else if (i : ℤ) < percentStart then
    some (' ', sty)
  else
    (pt[((i : ℤ) - percentStart).toNat]?).map (fun c => (c, sty))

/-- Option-valued map over a list, failing if any element fails; used to
embed loops whose bodies index into slices. -/
def omap (f : α → Option β) : List α → Option (List β)
  | [] => some []
  | a :: l =>
    match f a, omap f l with
    | some b, some r => some (b :: r)
    | _, _ => none

/-- Translation of createBarWithText (src/main.go lines 348-416), with the
local let-bindings of the Go function inlined.  width <= 0 returns the
unstyled text; a label plus percentage at least as wide as the bar
returns the styled text with no bar cells; otherwise one cell is emitted
per column of the bar. -/
def createBarWithText (label pt : List Char) (percent : ℚ) (width : ℤ) : Option (List Cell) :=
  if width ≤ 0 then
    some (cellsU (label ++ [' '] ++ pt))
  else if (label.length : ℤ) + pt.length ≥ width then
    some (cellsF (label ++ [' '] ++ pt))
  else
    omap (barCell label pt (goFilled (clampPercent percent) width)
        (width - pt.length) label.length)
      (List.range width.toNat)

/-- Translation of createSimpleBar (src/main.go lines 322-345): one block
glyph per filled column rendered through the style, one shade glyph per
unfilled column written bare. -/
def createSimpleBar (percent : ℚ) (width : ℤ) : List Cell :=
  if width ≤ 0 then []
  else
    (List.range width.toNat).map (fun (i : ℕ) =>
      if (i : ℤ) < goFilled (clampPercent percent) width then ('█', CellStyle.fg)
      else ('░', CellStyle.unstyled))

/-- Translation of truncateLeft (src/main.go lines 297-320), operating on
code points. -/
def truncateLeft (s : List Char) (maxWidth : ℤ) : List Char :=
  if maxWidth ≤ 0 then []
  else if (s.length : ℤ) ≤ maxWidth then s
  else if maxWidth ≤ 3 then ("...".toList).take maxWidth.toNat
  else ("...".toList) ++ s.drop (s.length - (maxWidth.toNat - 3))

/-- Translation of the ProcessInfo struct of src/main.go (PID is an int32,
CPU a float64, Memory a float32; both floats are modelled as rationals). -/
structure ProcessInfo where
  pid : ℤ
  cpu : ℚ
  memory : ℚ
  command : List Char

/-- Translation of the SystemStats struct of src/main.go. -/
structure SystemStats where
  cpuUsage : ℚ
  gpuUsage : ℚ
  memoryUsage : ℚ
  gpuMemory : ℚ
  cpuCores : List ℚ
  processes : List ProcessInfo

/-- Two-space unstyled separator written between adjacent bars in
model.View. -/
def sep2 : List Cell := cellsU ("  ".toList)

/-- Translation of the headline bar width computation of model.View
(src/main.go lines 159-164): availableWidth is the terminal width minus
2, the two bars split it minus the spacing, with a floor of 20. -/
def topBarWidth (w : ℤ) : ℤ :=
  let availableWidth := w - 2
  let barWidth := Int.tdiv (availableWidth - 2) 2
  if barWidth < 20 then 20 else barWidth

/-- Row 1 of model.View (src/main.go lines 166-177): the CPU usage bar, a
two-space gap, and the GPU usage bar. -/
def row1 (st : SystemStats) (w : ℤ) : Option (List Cell) :=
  (createBarWithText ("CPU Usage".toList) (fmtF1 5 st.cpuUsage ++ ['%'])
      st.cpuUsage (topBarWidth w)).bind fun a =>
    (createBarWithText ("GPU Usage".toList) (fmtF0 3 st.gpuUsage ++ ['%'])
        st.gpuUsage (topBarWidth w)).map fun b =>
      a ++ sep2 ++ b

/-- Row 2 of model.View (src/main.go lines 179-190): the memory bar, a
two-space gap, and the GPU memory bar. -/
def row2 (st : SystemStats) (w : ℤ) : Option (List Cell) :=
  (createBarWithText ("Memory".toList) (fmtF1 5 st.memoryUsage ++ ['%'])
      st.memoryUsage (topBarWidth w)).bind fun a =>
    (createBarWithText ("GPU Memory".toList) (fmtF1 4 st.gpuMemory ++ ['%'])
        st.gpuMemory (topBarWidth w)).map fun b =>
      a ++ sep2 ++ b

/-- Translation of the per-core grid computation of model.View
(src/main.go lines 195-216): coresPerLine starts at 4, the bar width is
the integer quotient of the remaining width, immediately clamped to the
minimum of 15; the subsequent branch that would drop to 2 bars per row
tests the already clamped width, exactly as the source does. -/
def coreLayout (w : ℤ) : ℕ × ℤ :=
  let availableWidth := w - 2
  let coreBarWidth := Int.tdiv (availableWidth - (4 - 1) * 2) 4
  let coreBarWidth := if coreBarWidth < 15 then 15 else coreBarWidth
  if coreBarWidth < 15 ∧ 4 > 2 then
    let coreBarWidth2 := Int.tdiv (availableWidth - (2 - 1) * 2) 2
    (2, if coreBarWidth2 < 15 then 15 else coreBarWidth2)
  else
    (4, coreBarWidth)

/-- One per-core bar of model.View (src/main.go lines 221-229): label
CPU%02d, percentage %4.1f%%, rendered at the core grid bar width; the
core percentage is looked up in the snapshot by index. -/
def coreBar (cores : List ℚ) (cbw : ℤ) (idx : ℕ) : Option (List Cell) :=
  (cores[idx]?).bind fun p =>
    createBarWithText ("CPU".toList ++ padLeft 2 '0' (natDigits idx))
      (fmtF1 4 p ++ ['%']) p cbw

/-- One row of the per-core grid (inner loop of src/main.go lines
218-237): bars j = 0.. while j < coresPerLine and i+j is a valid core
index, each bar except the one in the last column followed by a
two-space gap. -/
def coreRow (cores : List ℚ) (cpl : ℕ) (cbw : ℤ) (i : ℕ) : Option (List Cell) :=
  (omap (fun j => (coreBar cores cbw (i + j)).map
        (fun bar => if j < cpl - 1 then bar ++ sep2 else bar))
      ((List.range cpl).takeWhile (fun j => decide (i + j < cores.length)))).map
    List.flatten

/-- Fuel-driven translation of the outer per-core loop of model.View
(src/main.go line 218): rows start at core index i and advance by
coresPerLine; the fuel argument only bounds the iteration count so that
the recursion is structural, and is chosen large enough at the call
site. -/
def coreRowsAux (cores : List ℚ) (cpl : ℕ) (cbw : ℤ) : ℕ → ℕ → Option (List (List Cell))
  | _, 0 => some []
  | i, fuel + 1 =>
    if i < cores.length ∧ 0 < cpl then
      (coreRow cores cpl cbw i).bind fun r =>
        (coreRowsAux cores cpl cbw (i + cpl) fuel).map fun rest => r :: rest
    else some []

/-- Rows of the per-core grid of model.View. -/
def coreRows (cores : List ℚ) (cpl : ℕ) (cbw : ℤ) : Option (List (List Cell)) :=
  coreRowsAux cores cpl cbw 0 (cores.length + 1)

/-- Translation of the ceiling division computing the number of core grid
rows (src/main.go line 244). -/
def coreLinesOf (st : SystemStats) (w : ℤ) : ℕ :=
  (st.cpuCores.length + (coreLayout w).1 - 1) / (coreLayout w).1

/-- Translation of linesUsed (src/main.go line 245): two headline rows, a
blank line, the core grid rows, a blank line, and the table header. -/
def linesUsedOf (st : SystemStats) (w : ℤ) : ℕ :=
  2 + 1 + coreLinesOf st w + 1 + 1

/-- Translation of the vertical budget of model.View (src/main.go lines
249-257): a zero terminal height is replaced by the default 24, one
bottom margin line is reserved, and the result is clamped to at least
one line. -/
def availableLinesOf (st : SystemStats) (w h : ℤ) : ℤ :=
  let terminalHeight := if h = 0 then 24 else h
  let availableLines := terminalHeight - linesUsedOf st w - 1
  if availableLines < 1 then 1 else availableLines

/-- Translation of maxProcesses (src/main.go lines 260-263). -/
def maxProcessesOf (st : SystemStats) (w h : ℤ) : ℤ :=
  if availableLinesOf st w h > (st.processes.length : ℤ) then st.processes.length
  else availableLinesOf st w h

/-- Translation of the COMMAND column width (src/main.go lines 272-275):
terminal width minus the 25 fixed columns, floored at 10. -/
def commandWidthOf (w : ℤ) : ℤ :=
  let commandWidth := w - 25
  if commandWidth < 10 then 10 else commandWidth

/-- Translation of the process table header line (src/main.go line 267),
rendered entirely through the header style. -/
def headerLine : List Cell :=
  cellsF (padRight 10 ("PID".toList) ++ [' '] ++ padLeft 5 ' ' ("CPU%".toList)
    ++ "  ".toList ++ padLeft 5 ' ' ("MEM%".toList) ++ "  ".toList ++ "COMMAND".toList)

/-- Translation of one process table row (src/main.go lines 285-289): the
PID left-justified to 10 columns, the CPU and memory percentages
rendered through their band styles, and the command truncated from the
left to the COMMAND column width. -/
def procLine (w : ℤ) (p : ProcessInfo) : List Cell :=
  cellsU (padRight 10 (intDigits p.pid)) ++ cellsU [' ']
    ++ cellsF (fmtF1 5 p.cpu) ++ cellsU ("  ".toList)
    ++ cellsF (fmtF1 5 p.memory) ++ cellsU ("  ".toList)
    ++ cellsU (truncateLeft p.command (commandWidthOf w))

/-- Translation of the process table loop of model.View (src/main.go lines
277-290): rows i = 0 .. maxProcesses-1, each looking up process i in the
snapshot. -/
def procRowsOf (st : SystemStats) (w h : ℤ) : Option (List (List Cell)) :=
  omap (fun i => (st.processes[i]?).map (procLine w))
    (List.range (maxProcessesOf st w h).toNat)

/-- Lines of the frame composed by model.View for a nonzero width: the two
headline rows, a blank line, the core grid rows, a blank line, the table
header, and the process rows. -/
def frameLines (st : SystemStats) (w h : ℤ) : Option (List (List Cell)) :=
  (row1 st w).bind fun r1 =>
    (row2 st w).bind fun r2 =>
      (coreRows st.cpuCores (coreLayout w).1 (coreLayout w).2).bind fun crs =>
        (procRowsOf st w h).map fun prs =>
          [r1, r2, []] ++ crs ++ [[], headerLine] ++ prs

/-- Characters of a rendered line with the styling stripped. -/
def stripLine (l : List Cell) : List Char := l.map Prod.fst

/-- Frame string assembled by the strings.Builder of model.View: every
line, styling stripped, is written followed by a newline. -/
def frameString (ls : List (List Cell)) : List Char :=
  (ls.map (fun l => stripLine l ++ ['\n'])).flatten

/-- Translation of model.View (src/main.go lines 135-293): a stored width
of zero yields the loading placeholder, otherwise the composed frame. -/
def view (st : SystemStats) (w h : ℤ) : Option (List Char) :=
  if w = 0 then some ("Loading...".toList)
  else (frameLines st w h).map frameString

/-- Snapshot of the end-to-end scenario fixed by the spec: the four
headline percentages, eight core percentages, and a single process. -/
def scenarioStats : SystemStats where
  cpuUsage := 50
  gpuUsage := 25
  memoryUsage := 60
  gpuMemory := 30
  cpuCores := [10, 20, 30, 40, 50, 60, 70, 80]
  processes := [{ pid := 1234, cpu := 21/2, memory := 26/5, command := "/usr/bin/test".toList }]

/-- Length of the longest line of a frame. -/
def maxLineLen (ls : List (List Cell)) : ℕ := (ls.map List.length).foldr max 0

/-! ### Helper lemmas about the bar renderer -/

/-- Total companion of barCell, used only to state what the loop writes
once all its lookups are known to be in bounds. -/
def gbarCell (label pt : List Char) (filled percentStart labelLen : ℤ) (i : ℕ) : Cell :=
  let sty : CellStyle := if (i : ℤ) < filled then .bg else .fg
  if (i : ℤ) < labelLen then (label.getD i ' ', sty)
  else if (i : ℤ) < percentStart then (' ', sty)
  else (pt.getD ((i : ℤ) - percentStart).toNat ' ', sty)

lemma getElem?_eq_some_getD {α : Type} {l : List α} {i : ℕ} (d : α) (h : i < l.length) :
    l[i]? = some (l.getD i d) := by
  rw [List.getD_eq_getElem?_getD, List.getElem?_eq_getElem h]
  rfl

lemma omap_eq_map {α β : Type} {f : α → Option β} {g : α → β} :
    ∀ {l : List α}, (∀ a ∈ l, f a = some (g a)) → omap f l = some (l.map g)
  | [], _ => rfl
  | a :: l, h => by
    have ha : f a = some (g a) := h a (List.mem_cons_self a l)
    have hl : omap f l = some (l.map g) :=
      omap_eq_map (fun x hx => h x (List.mem_cons_of_mem a hx))
    simp [omap, ha, hl]

lemma omap_isSome {α β : Type} {f : α → Option β} :
    ∀ {l : List α}, (∀ a ∈ l, (f a).isSome) → (omap f l).isSome
  | [], _ => rfl
  | a :: l, h => by
    obtain ⟨b, hb⟩ := Option.isSome_iff_exists.mp (h a (List.mem_cons_self a l))
    obtain ⟨r, hr⟩ := Option.isSome_iff_exists.mp
      (omap_isSome (fun x hx => h x (List.mem_cons_of_mem a hx)))
    simp [omap, hb, hr]

lemma barCell_eq_gbarCell (label pt : List Char) (filled : ℤ) (w : ℤ)
    (i : ℕ) (hi : (i : ℤ) < w) :
    barCell label pt filled (w - pt.length) label.length i =
      some (gbarCell label pt filled (w - pt.length) label.length i) := by
  simp only [barCell, gbarCell]
  by_cases h1 : (i : ℤ) < (label.length : ℤ)
  · have hb : i < label.length := by omega
    rw [if_pos h1, if_pos h1, getElem?_eq_some_getD ' ' hb]
    rfl
  · by_cases h2 : (i : ℤ) < w - pt.length
    · rw [if_neg h1, if_neg h1, if_pos h2, if_pos h2]
    · have hb : ((i : ℤ) - (w - pt.length)).toNat < pt.length := by omega
      rw [if_neg h1, if_neg h1, if_neg h2, if_neg h2, getElem?_eq_some_getD ' ' hb]
      rfl

lemma createBar_eq_map (label pt : List Char) (p : ℚ) (w : ℤ) (hw : 0 < w)
    (hfit : (label.length : ℤ) + pt.length < w) :
    createBarWithText label pt p w =
      some ((List.range w.toNat).map
        (gbarCell label pt (goFilled (clampPercent p) w) (w - pt.length) label.length)) := by
  have h1 : ¬ w ≤ 0 := by omega
  have h2 : ¬ ((label.length : ℤ) + pt.length ≥ w) := by omega
  unfold createBarWithText
  rw [if_neg h1, if_neg h2]
  exact omap_eq_map (fun i hi =>
    barCell_eq_gbarCell label pt _ w i (by have := List.mem_range.mp hi; omega))

lemma createBar_isSome (label pt : List Char) (p : ℚ) (w : ℤ) :
    (createBarWithText label pt p w).isSome := by
  by_cases h1 : w ≤ 0
  · simp [createBarWithText, h1]
  · by_cases h2 : (label.length : ℤ) + pt.length ≥ w
    · simp [createBarWithText, h1, h2]
    · rw [createBar_eq_map label pt p w (by omega) (by omega)]
      rfl

/-- Count of cells of a bar rendered through the inverted background
style, the observable measure of the filled region. -/
def countInv (o : Option (List Cell)) : ℕ :=
  (o.getD []).countP (fun c => decide (c.2 = CellStyle.bg))

/-- Count of filled block glyphs of a simple bar. -/
def countFill (l : List Cell) : ℕ := l.countP (fun c => decide (c.1 = '█'))

lemma countP_range_lt (f : ℤ) : ∀ n : ℕ,
    (List.range n).countP (fun (i : ℕ) => decide ((i : ℤ) < f)) = min f.toNat n
  | 0 => by simp
  | n + 1 => by
    rw [List.range_succ, List.countP_append, countP_range_lt f n]
    by_cases h : (n : ℤ) < f
    · have h1 : List.countP (fun (i : ℕ) => decide ((i : ℤ) < f)) [n] = 1 := by
        simp [List.countP_cons, h]
      rw [h1]
      omega
    · have h1 : List.countP (fun (i : ℕ) => decide ((i : ℤ) < f)) [n] = 0 := by
        simp [List.countP_cons, h]
      rw [h1]
      omega

lemma gbarCell_snd (label pt : List Char) (filled ps ll : ℤ) (i : ℕ) :
    (gbarCell label pt filled ps ll i).2 =
      if (i : ℤ) < filled then CellStyle.bg else CellStyle.fg := by
  simp only [gbarCell]
  split_ifs <;> rfl

lemma countInv_bar (label pt : List Char) (p : ℚ) (w : ℤ) (hw : 0 < w)
    (hfit : (label.length : ℤ) + pt.length < w) :
    countInv (createBarWithText label pt p w)
      = min (goFilled (clampPercent p) w).toNat w.toNat := by
  rw [countInv, createBar_eq_map label pt p w hw hfit, Option.getD_some, List.countP_map]
  have hcong : List.countP
      ((fun c : Cell => decide (c.2 = CellStyle.bg)) ∘
        gbarCell label pt (goFilled (clampPercent p) w) (w - pt.length) label.length)
      (List.range w.toNat)
      = List.countP (fun (i : ℕ) => decide ((i : ℤ) < goFilled (clampPercent p) w))
        (List.range w.toNat) := by
    apply List.countP_congr
    intro i _
    simp only [Function.comp_apply, gbarCell_snd]
    by_cases h : (i : ℤ) < goFilled (clampPercent p) w <;> simp [h]
  rw [hcong, countP_range_lt]

lemma countFill_simpleBar (p : ℚ) (w : ℤ) (hw : 0 < w) :
    countFill (createSimpleBar p w) = min (goFilled (clampPercent p) w).toNat w.toNat := by
  rw [countFill, createSimpleBar, if_neg (by omega), List.countP_map]
  have hcong : List.countP
      ((fun c : Cell => decide (c.1 = '█')) ∘ fun (i : ℕ) =>
        if (i : ℤ) < goFilled (clampPercent p) w then ('█', CellStyle.fg)
        else ('░', CellStyle.unstyled))
      (List.range w.toNat)
      = List.countP (fun (i : ℕ) => decide ((i : ℤ) < goFilled (clampPercent p) w))
        (List.range w.toNat) := by
    apply List.countP_congr
    intro i _
    by_cases h : (i : ℤ) < goFilled (clampPercent p) w <;> simp [h]
  rw [hcong, countP_range_lt]

/-! ### Helper lemmas about clamping and the fill count -/

lemma clampPercent_nonneg (p : ℚ) : 0 ≤ clampPercent p := by
  unfold clampPercent
  split_ifs <;> linarith

lemma clampPercent_le_100 (p : ℚ) : clampPercent p ≤ 100 := by
  unfold clampPercent
  split_ifs <;> linarith

lemma clampPercent_mono {p q : ℚ} (h : p ≤ q) : clampPercent p ≤ clampPercent q := by
  unfold clampPercent
  split_ifs <;> linarith

lemma clampPercent_of_neg {p : ℚ} (h : p < 0) : clampPercent p = clampPercent 0 := by
  unfold clampPercent
  rw [if_pos h]
  norm_num

lemma clampPercent_of_gt {p : ℚ} (h : 100 < p) : clampPercent p = clampPercent 100 := by
  unfold clampPercent
  rw [if_neg (by linarith), if_pos h]
  norm_num

lemma createBar_congr (label pt : List Char) {p q : ℚ} (w : ℤ)
    (h : clampPercent p = clampPercent q) :
    createBarWithText label pt p w = createBarWithText label pt q w := by
  unfold createBarWithText
  rw [h]

lemma ratFloor_eq (x : ℚ) : ratFloor x = ⌊x⌋ := Rat.floor_def.symm

lemma goFilled_eq_floor (p : ℚ) (w : ℤ) (hp : 0 ≤ p) (hw : 0 ≤ w) :
    goFilled p w = ⌊p / 100 * w⌋ := by
  have hw' : (0 : ℚ) ≤ (w : ℚ) := by exact_mod_cast hw
  unfold goFilled ratTrunc
  rw [if_neg (not_lt.mpr (mul_nonneg (div_nonneg hp (by norm_num)) hw')), ratFloor_eq]

lemma goFilled_nonneg (p : ℚ) (w : ℤ) (hp : 0 ≤ p) (hw : 0 ≤ w) :
    0 ≤ goFilled p w := by
  have hw' : (0 : ℚ) ≤ (w : ℚ) := by exact_mod_cast hw
  rw [goFilled_eq_floor p w hp hw]
  exact Int.floor_nonneg.mpr (mul_nonneg (div_nonneg hp (by norm_num)) hw')

lemma goFilled_le_width (p : ℚ) (w : ℤ) (hp0 : 0 ≤ p) (hp : p ≤ 100) (hw : 0 ≤ w) :
    goFilled p w ≤ w := by
  have hw' : (0 : ℚ) ≤ (w : ℚ) := by exact_mod_cast hw
  rw [goFilled_eq_floor p w hp0 hw]
  have h1 : p / 100 * w ≤ (w : ℚ) := by
    have h2 : p / 100 ≤ 1 := (div_le_one (by norm_num)).mpr hp
    calc p / 100 * w ≤ 1 * w := mul_le_mul_of_nonneg_right h2 hw'
      _ = (w : ℚ) := one_mul _
  calc ⌊p / 100 * (w : ℚ)⌋ ≤ ⌊((w : ℤ) : ℚ)⌋ := Int.floor_le_floor h1
    _ = w := Int.floor_intCast w

lemma goFilled_mono {p q : ℚ} (w : ℤ) (h : p ≤ q) (hp : 0 ≤ p) (hw : 0 ≤ w) :
    goFilled p w ≤ goFilled q w := by
  have hw' : (0 : ℚ) ≤ (w : ℚ) := by exact_mod_cast hw
  rw [goFilled_eq_floor p w hp hw, goFilled_eq_floor q w (le_trans hp h) hw]
  apply Int.floor_le_floor
  exact mul_le_mul_of_nonneg_right ((div_le_div_iff_of_pos_right (by norm_num)).mpr h) hw'

/-! ### Claim theorems about the text utilities and the bar renderer -/

/-- C3: truncateLeft returns a result of exactly min(len(s), maxWidth)
code points for every maxWidth at least 0; it returns s unchanged when s
fits, the empty string for maxWidth = 0, the first maxWidth characters
of the ellipsis when s overflows and maxWidth is at most 3, and
otherwise the ellipsis followed by the last maxWidth - 3 code points of
s. -/
theorem spec_c3 (s : List Char) (maxWidth : ℤ) (hmw : 0 ≤ maxWidth) :
    (truncateLeft s maxWidth).length = min s.length maxWidth.toNat ∧
    ((s.length : ℤ) ≤ maxWidth → truncateLeft s maxWidth = s) ∧
    (maxWidth = 0 → truncateLeft s maxWidth = []) ∧
    (maxWidth < (s.length : ℤ) → 1 ≤ maxWidth → maxWidth ≤ 3 →
      truncateLeft s maxWidth = ("...".toList).take maxWidth.toNat) ∧
    (maxWidth < (s.length : ℤ) → 3 < maxWidth →
      truncateLeft s maxWidth = ("...".toList) ++ s.drop (s.length - (maxWidth.toNat - 3))) := by
  have hdots : ("...".toList).length = 3 := rfl
  unfold truncateLeft
  split_ifs with h1 h2 h3
  · refine ⟨?_, fun h => ?_, fun _ => rfl, fun ha hb _ => absurd hb (by omega), 
      fun _ hb => absurd hb (by omega)⟩
    · simp only [List.length_nil]
      omega
    · have : s.length = 0 := by omega
      exact (List.length_eq_zero.mp this).symm
  · exact ⟨by omega, fun _ => rfl, fun h => absurd h (by omega),
      fun ha _ _ => absurd ha (by omega), fun ha _ => absurd ha (by omega)⟩
  · refine ⟨?_, fun h => absurd h (by omega), fun h => absurd h (by omega),
      fun _ _ _ => rfl, fun _ hb => absurd hb (by omega)⟩
    rw [List.length_take, hdots]
    omega
  · refine ⟨?_, fun h => absurd h (by omega), fun h => absurd h (by omega),
      fun _ _ hc => absurd hc (by omega), fun _ _ => rfl⟩
    rw [List.length_append, hdots, List.length_drop]
    omega

/-- Witness for C3 at s = "/usr/bin/test", maxWidth = 5. -/
theorem spec_c3_witness :
    (truncateLeft ("/usr/bin/test".toList) 5).length
      = min ("/usr/bin/test".toList).length ((5 : ℤ)).toNat :=
  (spec_c3 ("/usr/bin/test".toList) 5 (by decide)).1

/-- C4: for positive width the bar renderer treats out-of-range
percentages exactly like the nearest bound, the fill count of the
clamped percentage is the floor of percent / 100 * width, that count
lies between 0 and width, and when a bar is actually drawn the number of
inverted cells equals it. -/
theorem spec_c4 (label pt : List Char) (p : ℚ) (w : ℤ) (hw : 0 < w) :
    (p < 0 → createBarWithText label pt p w = createBarWithText label pt 0 w) ∧
    (100 < p → createBarWithText label pt p w = createBarWithText label pt 100 w) ∧
    goFilled (clampPercent p) w = ⌊clampPercent p / 100 * (w : ℚ)⌋ ∧
    0 ≤ goFilled (clampPercent p) w ∧ goFilled (clampPercent p) w ≤ w ∧
    ((label.length : ℤ) + pt.length < w →
      countInv (createBarWithText label pt p w) = (goFilled (clampPercent p) w).toNat) := by
  have hc0 := clampPercent_nonneg p
  have hc1 := clampPercent_le_100 p
  refine ⟨fun h => createBar_congr label pt w (clampPercent_of_neg h),
    fun h => createBar_congr label pt w (clampPercent_of_gt h),
    goFilled_eq_floor _ w hc0 (by omega),
    goFilled_nonneg _ w hc0 (by omega),
    goFilled_le_width _ w hc0 hc1 (by omega),
    fun hfit => ?_⟩
  rw [countInv_bar label pt p w hw hfit]
  have h1 : goFilled (clampPercent p) w ≤ w := goFilled_le_width _ w hc0 hc1 (by omega)
  have h2 : 0 ≤ goFilled (clampPercent p) w := goFilled_nonneg _ w hc0 (by omega)
  omega

/-- Witness for C4 at percent = -5, width = 8. -/
theorem spec_c4_witness :
    createBarWithText ("AB".toList) ("CD".toList) (-5) 8
      = createBarWithText ("AB".toList) ("CD".toList) 0 8 :=
  (spec_c4 ("AB".toList) ("CD".toList) (-5) 8 (by decide)).1 (by norm_num)

/-- C5: when the label and percentage text strictly fit inside a positive
width, the rendered bar is exactly width cells, whose stripped
characters are the label on columns [0, len(label)), spaces on the
middle columns, and the percentage text right-aligned on the last
len(percentText) columns. -/
theorem spec_c5 (label pt : List Char) (p : ℚ) (w : ℤ) (hw : 0 < w)
    (hfit : (label.length : ℤ) + pt.length < w) :
    ∃ cells, createBarWithText label pt p w = some cells ∧
      cells.length = w.toNat ∧
      (∀ i : ℕ, i < label.length → (cells[i]?).map Prod.fst = label[i]?) ∧
      (∀ i : ℕ, label.length ≤ i → (i : ℤ) < w - pt.length →
        (cells[i]?).map Prod.fst = some ' ') ∧
      (∀ i : ℕ, w - (pt.length : ℤ) ≤ (i : ℤ) → i < w.toNat →
        (cells[i]?).map Prod.fst = pt[((i : ℤ) - (w - pt.length)).toNat]?) := by
  refine ⟨_, createBar_eq_map label pt p w hw hfit, ?_, ?_, ?_, ?_⟩
  · rw [List.length_map, List.length_range]
  · intro i hi
    have hiw : i < w.toNat := by omega
    rw [List.getElem?_map, List.getElem?_range hiw, Option.map_some']
    simp only [gbarCell]
    rw [if_pos (by omega : (i : ℤ) < (label.length : ℤ)), Option.map_some']
    exact (getElem?_eq_some_getD ' ' hi).symm
  · intro i hi1 hi2
    have hiw : i < w.toNat := by omega
    rw [List.getElem?_map, List.getElem?_range hiw, Option.map_some']
    simp only [gbarCell]
    rw [if_neg (by omega : ¬ (i : ℤ) < (label.length : ℤ)), if_pos hi2, Option.map_some']
  · intro i hi1 hiw
    have hi2 : ¬ (i : ℤ) < w - pt.length := by omega
    have hb : ((i : ℤ) - (w - pt.length)).toNat < pt.length := by omega
    rw [List.getElem?_map, List.getElem?_range hiw, Option.map_some']
    simp only [gbarCell]
    rw [if_neg (by omega : ¬ (i : ℤ) < (label.length : ℤ)), if_neg hi2, Option.map_some']
    exact (getElem?_eq_some_getD ' ' hb).symm

/-- Witness for C5 at label AB, percentText CD, percent 50, width 8. -/
theorem spec_c5_witness :
    ∃ cells, createBarWithText ("AB".toList) ("CD".toList) 50 8 = some cells ∧
      cells.length = (8 : ℤ).toNat := by
  obtain ⟨cells, hc, hl, -, -, -⟩ :=
    spec_c5 ("AB".toList) ("CD".toList) 50 8 (by decide) (by decide)
  exact ⟨cells, hc, hl⟩

/-- C6: the bar renderer is total on degenerate inputs: a nonpositive
width returns the unstyled label-space-percent text, and a positive
width too small for label plus percent returns the same text rendered in
the plain band style; in both cases no inverted bar cell is produced. -/
theorem spec_c6 (label pt : List Char) (p : ℚ) (w : ℤ) :
    (w ≤ 0 → createBarWithText label pt p w = some (cellsU (label ++ [' '] ++ pt)) ∧
      countInv (createBarWithText label pt p w) = 0) ∧
    (0 < w → w ≤ (label.length : ℤ) + pt.length →
      createBarWithText label pt p w = some (cellsF (label ++ [' '] ++ pt)) ∧
      countInv (createBarWithText label pt p w) = 0) := by
  constructor
  · intro h
    have he : createBarWithText label pt p w = some (cellsU (label ++ [' '] ++ pt)) := by
      unfold createBarWithText
      rw [if_pos h]
    refine ⟨he, ?_⟩
    rw [countInv, he, Option.getD_some, cellsU, List.countP_map]
    rw [List.countP_eq_zero]
    intro a _
    simp
  · intro h1 h2
    have he : createBarWithText label pt p w = some (cellsF (label ++ [' '] ++ pt)) := by
      unfold createBarWithText
      rw [if_neg (by omega), if_pos (by omega)]
    refine ⟨he, ?_⟩
    rw [countInv, he, Option.getD_some, cellsF, List.countP_map]
    rw [List.countP_eq_zero]
    intro a _
    simp

/-- Witness for C6 at width 0 and at width 4 with text too wide. -/
theorem spec_c6_witness :
    createBarWithText ("AB".toList) ("CD".toList) 50 0
        = some (cellsU ("AB".toList ++ [' '] ++ "CD".toList)) ∧
    createBarWithText ("AB".toList) ("CD".toList) 50 4
        = some (cellsF ("AB".toList ++ [' '] ++ "CD".toList)) :=
  ⟨((spec_c6 ("AB".toList) ("CD".toList) 50 0).1 (by decide)).1,
   ((spec_c6 ("AB".toList) ("CD".toList) 50 4).2 (by decide) (by decide)).1⟩

/-- C10: for a fixed positive width the number of inverted cells of
createBarWithText and the number of filled block glyphs of
createSimpleBar are both monotone in the percentage. -/
theorem spec_c10 (label pt : List Char) (w : ℤ) (p1 p2 : ℚ) (hw : 0 < w) (hp : p1 ≤ p2) :
    countInv (createBarWithText label pt p1 w)
        ≤ countInv (createBarWithText label pt p2 w) ∧
    countFill (createSimpleBar p1 w) ≤ countFill (createSimpleBar p2 w) := by
  have hmono : goFilled (clampPercent p1) w ≤ goFilled (clampPercent p2) w :=
    goFilled_mono w (clampPercent_mono hp) (clampPercent_nonneg p1) (by omega)
  have htn := Int.toNat_le_toNat hmono
  constructor
  · by_cases hfit : (label.length : ℤ) + pt.length < w
    · rw [countInv_bar label pt p1 w hw hfit, countInv_bar label pt p2 w hw hfit]
      omega
    · have h1 : ¬ w ≤ 0 := by omega
      have h2 : (label.length : ℤ) + pt.length ≥ w := by omega
      have he : createBarWithText label pt p1 w = createBarWithText label pt p2 w := by
        unfold createBarWithText
        rw [if_neg h1, if_neg h1, if_pos h2, if_pos h2]
      rw [he]
  · rw [countFill_simpleBar p1 w hw, countFill_simpleBar p2 w hw]
    omega

/-- Witness for C10 at percentages 10 and 90, width 8. -/
theorem spec_c10_witness :
    countInv (createBarWithText ("AB".toList) ("CD".toList) 10 8)
        ≤ countInv (createBarWithText ("AB".toList) ("CD".toList) 90 8) ∧
    countFill (createSimpleBar 10 8) ≤ countFill (createSimpleBar 90 8) :=
  spec_c10 ("AB".toList) ("CD".toList) 8 10 90 (by decide) (by norm_num)

/-! ### Helper lemmas about the frame composer -/

lemma coreLayout_fst (w : ℤ) : (coreLayout w).1 = 4 := by
  simp only [coreLayout]
  by_cases hc : Int.tdiv (w - 2 - (4 - 1) * 2) 4 < 15
  · rw [if_pos hc, if_neg (show ¬ ((15 : ℤ) < 15 ∧ 4 > 2) from fun hh => by omega)]
  · rw [if_neg hc,
      if_neg (show ¬ (Int.tdiv (w - 2 - (4 - 1) * 2) 4 < 15 ∧ 4 > 2) from fun hh => hc hh.1)]

lemma coreBar_isSome (cores : List ℚ) (cbw : ℤ) (idx : ℕ) (h : idx < cores.length) :
    (coreBar cores cbw idx).isSome := by
  unfold coreBar
  rw [List.getElem?_eq_getElem h, Option.some_bind]
  exact createBar_isSome _ _ _ _

lemma coreRow_isSome (cores : List ℚ) (cpl : ℕ) (cbw : ℤ) (i : ℕ) :
    (coreRow cores cpl cbw i).isSome := by
  have hsome : (omap (fun j => (coreBar cores cbw (i + j)).map
        (fun bar => if j < cpl - 1 then bar ++ sep2 else bar))
      ((List.range cpl).takeWhile (fun j => decide (i + j < cores.length)))).isSome := by
    apply omap_isSome
    intro j hj
    have hlt : i + j < cores.length := by
      have hp := List.mem_takeWhile_imp hj
      simpa using hp
    obtain ⟨bar, hbar⟩ := Option.isSome_iff_exists.mp (coreBar_isSome cores cbw (i + j) hlt)
    rw [hbar]
    rfl
  obtain ⟨parts, hparts⟩ := Option.isSome_iff_exists.mp hsome
  unfold coreRow
  rw [hparts]
  rfl

lemma coreRowsAux_four (cores : List ℚ) (cbw : ℤ) :
    ∀ (fuel i : ℕ), cores.length - i ≤ 4 * fuel →
      ∃ crs, coreRowsAux cores 4 cbw i fuel = some crs ∧
        crs.length = (cores.length - i + 3) / 4
  | 0, i, h => ⟨[], rfl, by simp only [List.length_nil]; omega⟩
  | fuel + 1, i, h => by
    by_cases hi : i < cores.length
    · obtain ⟨row, hrow⟩ := Option.isSome_iff_exists.mp (coreRow_isSome cores 4 cbw i)
      obtain ⟨rest, hrest, hlen⟩ := coreRowsAux_four cores cbw fuel (i + 4) (by omega)
      refine ⟨row :: rest, ?_, ?_⟩
      · rw [coreRowsAux, if_pos ⟨hi, by norm_num⟩, hrow, Option.some_bind, hrest,
          Option.map_some']
      · rw [List.length_cons, hlen]
        omega
    · exact ⟨[], by rw [coreRowsAux, if_neg (by omega)],
        by simp only [List.length_nil]; omega⟩

lemma coreRows_four (cores : List ℚ) (cbw : ℤ) :
    ∃ crs, coreRows cores 4 cbw = some crs ∧ crs.length = (cores.length + 3) / 4 := by
  obtain ⟨crs, h1, h2⟩ := coreRowsAux_four cores cbw (cores.length + 1) 0 (by omega)
  exact ⟨crs, h1, by omega⟩

lemma row1_isSome (st : SystemStats) (w : ℤ) : (row1 st w).isSome := by
  obtain ⟨a, ha⟩ := Option.isSome_iff_exists.mp
    (createBar_isSome ("CPU Usage".toList) (fmtF1 5 st.cpuUsage ++ ['%'])
      st.cpuUsage (topBarWidth w))
  obtain ⟨b, hb⟩ := Option.isSome_iff_exists.mp
    (createBar_isSome ("GPU Usage".toList) (fmtF0 3 st.gpuUsage ++ ['%'])
      st.gpuUsage (topBarWidth w))
  unfold row1
  rw [ha, hb]
  rfl

lemma row2_isSome (st : SystemStats) (w : ℤ) : (row2 st w).isSome := by
  obtain ⟨a, ha⟩ := Option.isSome_iff_exists.mp
    (createBar_isSome ("Memory".toList) (fmtF1 5 st.memoryUsage ++ ['%'])
      st.memoryUsage (topBarWidth w))
  obtain ⟨b, hb⟩ := Option.isSome_iff_exists.mp
    (createBar_isSome ("GPU Memory".toList) (fmtF1 4 st.gpuMemory ++ ['%'])
      st.gpuMemory (topBarWidth w))
  unfold row2
  rw [ha, hb]
  rfl

lemma maxProcesses_le (st : SystemStats) (w h : ℤ) :
    (maxProcessesOf st w h).toNat ≤ st.processes.length := by
  unfold maxProcessesOf
  split_ifs with h1 <;> omega

lemma range_map_getD_take {α β : Type} (f : α → β) (d : α) :
    ∀ (k : ℕ) (l : List α), k ≤ l.length →
      (List.range k).map (fun i => f (l.getD i d)) = (l.take k).map f
  | 0, l, _ => by simp
  | k + 1, l, hk => by
    have hkl : k < l.length := by omega
    have hgd : l.getD k d = l[k] := by
      rw [List.getD_eq_getElem?_getD, List.getElem?_eq_getElem hkl]
      rfl
    rw [List.range_succ, List.map_append, range_map_getD_take f d k l (by omega),
      List.take_succ, List.map_append, List.getElem?_eq_getElem hkl]
    simp [hgd, List.getElem?_eq_getElem hkl]

lemma procRows_eq (st : SystemStats) (w h : ℤ) :
    procRowsOf st w h
      = some ((st.processes.take (maxProcessesOf st w h).toNat).map (procLine w)) := by
  unfold procRowsOf
  rw [← range_map_getD_take (procLine w) ⟨0, 0, 0, []⟩ _ _ (maxProcesses_le st w h)]
  apply omap_eq_map
  intro i hi
  have hlt : i < st.processes.length :=
    lt_of_lt_of_le (List.mem_range.mp hi) (maxProcesses_le st w h)
  rw [getElem?_eq_some_getD ⟨0, 0, 0, []⟩ hlt, Option.map_some']

lemma frameLines_eq (st : SystemStats) (w h : ℤ) :
    ∃ r1 r2 crs,
      frameLines st w h = some ([r1, r2, []] ++ crs ++ [[], headerLine]
        ++ (st.processes.take (maxProcessesOf st w h).toNat).map (procLine w)) ∧
      crs.length = coreLinesOf st w := by
  obtain ⟨r1, hr1⟩ := Option.isSome_iff_exists.mp (row1_isSome st w)
  obtain ⟨r2, hr2⟩ := Option.isSome_iff_exists.mp (row2_isSome st w)
  obtain ⟨crs, hcrs, hlen⟩ := coreRows_four st.cpuCores (coreLayout w).2
  refine ⟨r1, r2, crs, ?_, ?_⟩
  · unfold frameLines
    rw [coreLayout_fst w, hr1, Option.some_bind, hr2, Option.some_bind, hcrs,
      Option.some_bind, procRows_eq, Option.map_some']
  · rw [hlen]
    unfold coreLinesOf
    rw [coreLayout_fst w]
    omega

/-! ### Claim theorems about the frame composer -/

/-- C7: for any snapshot and any dimensions with nonzero width, the
vertical budget of the frame is availableLines = max(1, H - linesUsed -
1) with H the terminal height or 24 when the height is 0, so it is
always at least 1, and the composed frame ends in exactly
min(availableLines, process count) process rows taken from the snapshot
in order. -/
theorem spec_c7 (st : SystemStats) (w h : ℤ) (hw : w ≠ 0) :
    1 ≤ availableLinesOf st w h ∧
    availableLinesOf st w h = max 1 ((if h = 0 then 24 else h) - linesUsedOf st w - 1) ∧
    view st w h = (frameLines st w h).map frameString ∧
    ∃ r1 r2 crs prs,
      frameLines st w h = some ([r1, r2, []] ++ crs ++ [[], headerLine] ++ prs) ∧
      crs.length = coreLinesOf st w ∧
      prs = (st.processes.take (maxProcessesOf st w h).toNat).map (procLine w) ∧
      prs.length = min (availableLinesOf st w h).toNat st.processes.length := by
  refine ⟨?_, ?_, ?_, ?_⟩
  · simp only [availableLinesOf]
    split_ifs <;> omega
  · simp only [availableLinesOf]
    split_ifs <;> omega
  · unfold view
    rw [if_neg hw]
  · obtain ⟨r1, r2, crs, hf, hc⟩ := frameLines_eq st w h
    refine ⟨r1, r2, crs, _, hf, hc, rfl, ?_⟩
    rw [List.length_map, List.length_take]
    simp only [maxProcessesOf]
    split_ifs <;> omega

/-- Witness for C7 at the scenario snapshot, width 80, height 24. -/
theorem spec_c7_witness : 1 ≤ availableLinesOf scenarioStats 80 24 :=
  (spec_c7 scenarioStats 80 24 (by decide)).1

/-- C8: a stored terminal width of zero makes the renderer return the
loading placeholder for every snapshot and height. -/
theorem spec_c8 (st : SystemStats) (h : ℤ) :
    view st 0 h = some ("Loading...".toList) := by
  unfold view
  rw [if_pos rfl]

/-- C9: frame composition is total: for every snapshot and every pair of
terminal dimensions the embedded renderer, all of whose slice and rune
indexing is Option-valued, produces a frame, so no out-of-bounds branch
is ever taken. -/
theorem spec_c9 (st : SystemStats) (w h : ℤ) :
    (view st w h).isSome ∧ (frameLines st w h).isSome := by
  obtain ⟨r1, r2, crs, hf, -⟩ := frameLines_eq st w h
  constructor
  · unfold view
    split_ifs
    · rfl
    · rw [hf]
      rfl
  · rw [hf]
    rfl

/-- C1 (code behavior): the per-core layout of model.View clamps the bar
width to the minimum of 15 before testing it, so the branch that would
fall back to 2 bars per row is unreachable: every width keeps 4 bars per
row, and the narrow width 42 yields 4 bars of width 15 rather than the 2
bars of width 19 the spec describes. -/
theorem spec_c1_code_behavior :
    (∀ w : ℤ, (coreLayout w).1 = 4) ∧ coreLayout 42 = (4, 15) :=
  ⟨coreLayout_fst, by decide⟩

set_option maxHeartbeats 4000000 in
set_option maxRecDepth 100000 in
/-- C2 (code behavior): at the scenario snapshot and height 24 the longest
stripped line of the composed frame is 78 at width 80 (and 66, 98, 118
at widths 60, 100, 120), so at width 80 it falls short of the
width - 1 = 79 columns the spec requires: the margin of 2 columns
subtracted from the terminal width caps rows at width - 2. -/
theorem spec_c2_code_behavior :
    (frameLines scenarioStats 80 24).map maxLineLen = some 78 ∧
    (frameLines scenarioStats 60 24).map maxLineLen = some 66 ∧
    (frameLines scenarioStats 100 24).map maxLineLen = some 98 ∧
    (frameLines scenarioStats 120 24).map maxLineLen = some 118 ∧
    (78 : ℤ) < 80 - 1 :=
  ⟨by with_unfolding_all decide, by with_unfolding_all decide,
   by with_unfolding_all decide, by with_unfolding_all decide, by decide⟩
